import Mathlib

/-!
Verification of the satoshi_bot signal pipeline.

Shallow embedding of the Python sources:
  - `src/safe_utils.py`   : safe_float_convert, validate_pair_data,
                            retry_with_exponential_backoff
  - `src/utils.py`        : filter_signals
  - `src/filters/scam_filters.py` : the six scam/quality predicates
  - `src/config.py`       : threshold constants
  - `src/bot.py`          : MemorySafeJobManager

Python values flowing through the pipeline (JSON-shaped records) are
modelled by `PyVal`; Python floats by `PyFloat` (finite values are exact
rationals, plus nan and signed infinities).  Fallible Python code
(uncaught exceptions) is modelled with `Except`.

All definitions are written with kernel-reducible rational arithmetic
(`Rat.divInt` based helpers, proved equal to the ordinary field
operations below) and structural character-list string operations, so
that every concrete run of the embedded code can be checked by `rfl` or
`decide`.
-/

namespace SatoshiBot

/-! ## Reducible rational arithmetic -/

/-- Rational addition, kernel-reducible. -/
def qAdd (a b : ℚ) : ℚ := Rat.divInt (a.num * b.den + b.num * a.den) (a.den * b.den)

/-- Rational subtraction, kernel-reducible. -/
def qSub (a b : ℚ) : ℚ := Rat.divInt (a.num * b.den - b.num * a.den) (a.den * b.den)

/-- Rational division, kernel-reducible (division by zero gives 0, as in
Lean's field structure on `ℚ`). -/
def qDiv (a b : ℚ) : ℚ := Rat.divInt (a.num * b.den) (a.den * b.num)

/-- Rational negation, kernel-reducible. -/
def qNeg (a : ℚ) : ℚ := Rat.divInt (-a.num) a.den

/-- Rational absolute value, kernel-reducible. -/
def qAbs (a : ℚ) : ℚ := Rat.divInt a.num.natAbs a.den

/-! ## Structural character-list string operations -/

/-- ASCII lower-casing of one character (`str.lower()` restricted to the
ASCII range, which covers every string the embedded code compares). -/
def lowerChar (c : Char) : Char :=
  if 65 ≤ c.toNat ∧ c.toNat ≤ 90 then Char.ofNat (c.toNat + 32) else c

/-- `str.lower()`. -/
def lowerL (l : List Char) : List Char := l.map lowerChar

/-- `str.strip()`: drop leading and trailing whitespace. -/
def trimL (l : List Char) : List Char :=
  ((l.dropWhile Char.isWhitespace).reverse.dropWhile Char.isWhitespace).reverse

/-- Does `hay` start with `pat`? -/
def startsWithL : List Char → List Char → Bool
  | [], _ => true
  | _ :: _, [] => false
  | p :: ps, h :: hs => p = h && startsWithL ps hs

/-- Python `pat in hay` for a non-empty pattern. -/
def containsL : List Char → List Char → Bool
  | [], pat => pat.isEmpty
  | h :: t, pat => startsWithL pat (h :: t) || containsL t pat

/-! ## The Python value and float model -/

/-- Python float values: finite (modelled exactly as a rational), nan,
or a signed infinity (`inf true` is +inf). -/
inductive PyFloat where
  | fin (q : ℚ)
  | nan
  | inf (pos : Bool)
deriving DecidableEq, Repr

/-- Python/JSON values as they occur in the pipeline's records. `vOther`
stands for any further object (list, custom object, ...) that none of the
embedded code inspects beyond type checks. -/
inductive PyVal where
  | vNone
  | vStr (s : String)
  | vInt (n : Int)
  | vFlt (q : ℚ)
  | vNaN
  | vInf (pos : Bool)
  | vDict (d : List (String × PyVal))
  | vOther

/-- `d.get(key)` on a Python dict (no default): first matching key. -/
def dget : List (String × PyVal) → String → Option PyVal
  | [], _ => none
  | (k, v) :: rest, key => if k = key then some v else dget rest key

/-- Python truthiness of a value (`bool(v)`). -/
def pyTruthy : PyVal → Bool
  | .vNone => false
  | .vStr s => s ≠ ""
  | .vInt n => n ≠ 0
  | .vFlt q => q ≠ 0
  | .vNaN => true
  | .vInf _ => true
  | .vDict d => ¬ d.isEmpty
  | .vOther => true

/-- Numeric value of a digit character. -/
def digitVal (c : Char) : Nat := c.toNat - 48

/-- Value of a digit string read in base 10. -/
def digitsToNat (l : List Char) : Nat := l.foldl (fun a c => a * 10 + digitVal c) 0

/-- Split a char list at the first char satisfying `p`; `none` when absent. -/
def splitAtFirst (p : Char → Bool) : List Char → (List Char × Option (List Char))
  | [] => ([], none)
  | c :: cs =>
    if p c then ([], some cs)
    else
      let r := splitAtFirst p cs
      (c :: r.1, r.2)

/-- Strip one leading sign character; returns (isNegative, rest). -/
def stripSign : List Char → (Bool × List Char)
  | '+' :: cs => (false, cs)
  | '-' :: cs => (true, cs)
  | cs => (false, cs)

/-- Square-and-multiply integer power with structural fuel, so that the
elaborator and the kernel evaluate it with logarithmic recursion depth;
the fuel of 64 covers every exponent below `2 ^ 64`. -/
def ipowAux (base acc : Int) : Nat → Nat → Int
  | _, 0 => acc
  | 0, _ + 1 => acc
  | f + 1, k + 1 =>
    ipowAux (base * base) (if (k + 1) % 2 = 1 then acc * base else acc) f ((k + 1) / 2)

/-- `base ^ k` by shallow recursion. -/
def ipow (base : Int) (k : Nat) : Int := ipowAux base 1 64 k

/-- Parse the unsigned mantissa `digits [. digits]` of a float literal. -/
def parseMantissa (cs : List Char) : Option ℚ :=
  let s := splitAtFirst (· = '.') cs
  let ip := s.1
  let fp := s.2.getD []
  if ip.isEmpty && fp.isEmpty then none
  else if ip.all Char.isDigit && fp.all Char.isDigit then
    some (Rat.divInt (digitsToNat ip * ipow 10 fp.length + digitsToNat fp)
      (ipow 10 fp.length))
  else none

/-- Parse the exponent part after `e`. -/
def parseExp (cs : List Char) : Option Int :=
  let s := stripSign cs
  if !s.2.isEmpty && s.2.all Char.isDigit then
    some (if s.1 then -(digitsToNat s.2 : Int) else (digitsToNat s.2 : Int))
  else none

/-- `m * 10 ^ e` for an integer exponent, kernel-reducible. -/
def scaleByPow10 (m : ℚ) : Int → ℚ
  | .ofNat k => Rat.divInt (m.num * ipow 10 k) m.den
  | .negSucc k => Rat.divInt m.num (m.den * ipow 10 (k + 1))

/-- The first power of two beyond every IEEE binary64 magnitude
(`2 ^ 1024`); CPython's string-to-float conversion overflows to a
signed infinity around it. -/
def OVERFLOW_BOUND : ℚ := Rat.divInt (ipow 2 1024) 1

/-- Model of CPython's `float(str)` parsing on an already-stripped char
list: optional sign, then `inf`/`infinity`/`nan` (case-insensitive) or a
decimal literal with optional exponent.  Magnitudes at or beyond
`2 ^ 1024` overflow to a signed infinity. -/
def parsePyFloat (cs : List Char) : Option PyFloat :=
  let t := stripSign cs
  let neg := t.1
  let low := lowerL t.2
  if low = "inf".data || low = "infinity".data then some (.inf (!neg))
  else if low = "nan".data then some .nan
  else
    let me := splitAtFirst (fun c => c = 'e' || c = 'E') t.2
    let parsed : Option (ℚ × Int) :=
      match me.2 with
      | none => (parseMantissa me.1).map (fun m => (m, 0))
      | some ecs =>
        match parseMantissa me.1, parseExp ecs with
        | some m, some e => some (m, e)
        | _, _ => none
    match parsed with
    | none => none
    | some (m, e) =>
      let q := scaleByPow10 (if neg then qNeg m else m) e
      if qAbs q ≥ OVERFLOW_BOUND then some (.inf (!neg))
      else some (.fin q)

/-- Exception kinds raised by the builtin `float(value)`, distinguished
because call sites catch different sets: `caught` is a
`TypeError`/`ValueError` (in the `except (ValueError, TypeError, KeyError)`
clause of the `filter_signals` loop), `overflow` is an `OverflowError`
(NOT in that clause). -/
inductive PyErr where
  | caught
  | overflow
deriving DecidableEq, Repr

/-- Does converting this Python int to a float raise `OverflowError`?
CPython raises for magnitudes at (or rounding to) `2 ^ 1024` and beyond. -/
def intTooBig (n : Int) : Bool := decide (ipow 2 1024 ≤ (n.natAbs : Int))

/-- Is this value an int whose float conversion overflows? -/
def intTooBigV : PyVal → Bool
  | .vInt n => intTooBig n
  | _ => false

/-- Model of the builtin `float(value)`.  `error .caught` is a raised
`TypeError` (non-numeric type) or `ValueError` (unparseable string);
`error .overflow` is the `OverflowError` raised when an int of magnitude
at least `2 ^ 1024` is converted (string conversion instead yields a
signed infinity, never `OverflowError`). -/
def pyFloat : PyVal → Except PyErr PyFloat
  | .vInt n => if intTooBig n then .error .overflow else .ok (.fin n)
  | .vFlt q => .ok (.fin q)
  | .vNaN => .ok .nan
  | .vInf b => .ok (.inf b)
  | .vStr s =>
    match parsePyFloat (trimL s.data) with
    | some f => .ok f
    | none => .error .caught
  | _ => .error .caught

/-- View a value as a number for Python arithmetic/comparisons; `none`
is a raised `TypeError`. -/
def pyNumView : PyVal → Option PyFloat
  | .vInt n => some (.fin n)
  | .vFlt q => some (.fin q)
  | .vNaN => some .nan
  | .vInf b => some (.inf b)
  | _ => none

/-- Python `+` on floats (nan propagates, opposite infinities give nan). -/
def pfAdd : PyFloat → PyFloat → PyFloat
  | .fin a, .fin b => .fin (qAdd a b)
  | .nan, _ => .nan
  | _, .nan => .nan
  | .inf b1, .inf b2 => if b1 = b2 then .inf b1 else .nan
  | .inf b, .fin _ => .inf b
  | .fin _, .inf b => .inf b

/-- Python binary `-` on floats. -/
def pfSub : PyFloat → PyFloat → PyFloat
  | .fin a, .fin b => .fin (qSub a b)
  | .nan, _ => .nan
  | _, .nan => .nan
  | .inf b1, .inf b2 => if b1 = b2 then .nan else .inf b1
  | .inf b, .fin _ => .inf b
  | .fin _, .inf b => .inf (!b)

/-- Python `/` on floats; `none` is a raised `ZeroDivisionError`. -/
def pfDiv : PyFloat → PyFloat → Option PyFloat
  | .fin a, .fin b => if b = 0 then none else some (.fin (qDiv a b))
  | .nan, .fin b => if b = 0 then none else some .nan
  | .nan, _ => some .nan
  | .fin _, .nan => some .nan
  | .inf _, .nan => some .nan
  | .inf _, .inf _ => some .nan
  | .fin _, .inf _ => some (.fin 0)
  | .inf b, .fin c => if c = 0 then none else some (.inf (b = decide (0 < c)))

/-- Python `<=` on floats (any comparison with nan is False). -/
def pfLe : PyFloat → PyFloat → Bool
  | .fin a, .fin b => a ≤ b
  | .nan, _ => false
  | _, .nan => false
  | .inf b1, .inf b2 => !b1 || b2
  | .inf b, .fin _ => !b
  | .fin _, .inf b => b

/-- Python `<` on floats. -/
def pfLt : PyFloat → PyFloat → Bool
  | .fin a, .fin b => a < b
  | .nan, _ => false
  | _, .nan => false
  | .inf b1, .inf b2 => !b1 && b2
  | .inf b, .fin _ => !b
  | .fin _, .inf b => b

/-- Python `>=` on floats. -/
def pfGe (a b : PyFloat) : Bool := pfLe b a

/-- Python `abs` on floats. -/
def pfAbs : PyFloat → PyFloat
  | .fin a => .fin (qAbs a)
  | .nan => .nan
  | .inf _ => .inf true

/-- Python `== 0` on a float. -/
def pfEq0 : PyFloat → Bool
  | .fin a => a = 0
  | _ => false

/-! ## `src/safe_utils.py` : safe_float_convert and validate_pair_data -/

/-- `safe_float_convert(value, default)` from `src/safe_utils.py`.
Returned values are exact rationals, hence always finite.  The string
branch sits in a `try` that catches `ValueError` and `OverflowError`, so
it is total; but the numeric branch calls `math.isnan(value)` OUTSIDE any
`try`, which raises an uncaught `OverflowError` when `value` is an int of
magnitude at least `2 ^ 1024` — modelled as `.error ()`. -/
def safe_float_convert (value : PyVal) (default : ℚ) : Except Unit ℚ :=
  match value with
  | .vNone => .ok default
  | .vInt n => if intTooBig n then .error () else .ok (n : ℚ)
  | .vFlt q => .ok q
  | .vNaN => .ok default
  | .vInf _ => .ok default
  | .vStr s =>
    let t := trimL s.data
    if t.isEmpty || lowerL t = "null".data || lowerL t = "none".data ||
        lowerL t = "undefined".data then .ok default
    else
      match parsePyFloat t with
      | some (.fin q) => .ok q
      | some _ => .ok default
      | none => .ok default
  | _ => .ok default

/-- Stated from the spec's words (§4.1 NumericCoercion): None, empty or
whitespace-only strings and the three literal tokens give the default;
non-finite values give the default; a valid finite numeric string or
numeric type gives the parsed value; anything else gives the default. -/
def toFloat_spec (value : PyVal) (default : ℚ) : ℚ :=
  match value with
  | .vNone => default
  | .vNaN => default
  | .vInf _ => default
  | .vInt n => (n : ℚ)
  | .vFlt q => q
  | .vStr s =>
    if (trimL s.data).isEmpty ∨
        lowerL (trimL s.data) ∈ ["null".data, "none".data, "undefined".data] then default
    else
      match parsePyFloat (trimL s.data) with
      | some (.fin q) => q
      | _ => default
  | _ => default

/-- `validate_pair_data(pair)` from `src/safe_utils.py`.  It calls
`safe_float_convert` on `priceUsd` with no surrounding `try`, so the
`OverflowError` raised there for oversized priceUsd ints propagates
(`.error ()`); every other path returns a boolean. -/
def validate_pair_data : PyVal → Except Unit Bool
  | .vDict d =>
    if (dget d "baseToken").isNone then .ok false
    else if (dget d "quoteToken").isNone then .ok false
    else if (dget d "priceUsd").isNone then .ok false
    else
      match (dget d "baseToken").getD .vNone, (dget d "quoteToken").getD .vNone with
      | .vDict bt, .vDict qt =>
        if !pyTruthy ((dget bt "symbol").getD .vNone) then .ok false
        else if !pyTruthy ((dget qt "symbol").getD .vNone) then .ok false
        else
          match safe_float_convert ((dget d "priceUsd").getD .vNone) 0 with
          | .error e => .error e
          | .ok price => .ok (decide (0 < price))
      | _, _ => .ok false
  | _ => .ok false

/-! ## `src/config.py` : thresholds used by the filtering stage -/

def MIN_VOLUME : ℚ := 50000
def MIN_LIQUIDITY : ℚ := 10000
def MIN_PRICE_CHANGE : ℚ := 5

/-! ## `src/filters/scam_filters.py` : the six scam/quality predicates

Each predicate wraps its whole body in `try/except` returning a fixed
boolean on any exception, so each is modelled as a total boolean
function.  Raised-and-caught exceptions show up as the corresponding
fallback value. -/

/-- `has_sufficient_trading_activity(pair_data)`: total 1h transactions
at least 5 and total 24h transactions at least 20; any exception
(including non-dict structure or non-numeric counts) yields `false`. -/
def has_sufficient_trading_activity : PyVal → Bool
  | .vDict d =>
    match (dget d "txns").getD (.vDict []) with
    | .vDict t =>
      match (dget t "h1").getD (.vDict []) with
      | .vDict h1 =>
        match pyNumView ((dget h1 "buys").getD (.vInt 0)),
              pyNumView ((dget h1 "sells").getD (.vInt 0)) with
        | some b1, some s1 =>
          match (dget t "h24").getD (.vDict []) with
          | .vDict h24 =>
            match pyNumView ((dget h24 "buys").getD (.vInt 0)),
                  pyNumView ((dget h24 "sells").getD (.vInt 0)) with
            | some b24, some s24 =>
              pfGe (pfAdd b1 s1) (.fin 5) && pfGe (pfAdd b24 s24) (.fin 20)
            | _, _ => false
          | _ => false
        | _, _ => false
      | _ => false
    | _ => false
  | _ => false

/-- `has_balanced_trading(pair_data)`: 1h buy ratio within `[0.2, 0.8]`;
zero total or any exception yields `false`. -/
def has_balanced_trading : PyVal → Bool
  | .vDict d =>
    match (dget d "txns").getD (.vDict []) with
    | .vDict t =>
      match (dget t "h1").getD (.vDict []) with
      | .vDict h1 =>
        match pyNumView ((dget h1 "buys").getD (.vInt 0)),
              pyNumView ((dget h1 "sells").getD (.vInt 0)) with
        | some b, some s =>
          let tot := pfAdd b s
          if pfEq0 tot then false
          else
            match pfDiv b tot with
            | some r => pfLe (.fin (Rat.divInt 1 5)) r && pfLe r (.fin (Rat.divInt 4 5))
            | none => false
        | _, _ => false
      | _ => false
    | _ => false
  | _ => false

/-- `has_reasonable_market_cap(pair_data)`: when a positive market cap is
known it must lie within `[1000, 100000000]`; unknown, non-positive or
exception-raising data yields `true`. -/
def has_reasonable_market_cap : PyVal → Bool
  | .vDict d =>
    let mc := (dget d "marketCap").getD .vNone
    if !pyTruthy mc then true
    else
      match pyNumView mc with
      | none => true
      | some f =>
        if pfLe f (.fin 0) then true
        else pfLe (.fin 1000) f && pfLe f (.fin 100000000)
  | _ => true

/-- Extraction `float(pair.get(outer, {}).get(inner, 0))` exactly as it
appears (without a truthiness guard) in `has_sufficient_liquidity_depth`
and in the sort key of `filter_signals`; `.error` is a raised exception
(of any kind: in the liquidity-depth predicate every exception is caught,
and in the sort key every exception escapes `filter_signals`). -/
def rawNestedFloat (pair : PyVal) (outer inner : String) : Except Unit PyFloat :=
  match pair with
  | .vDict d =>
    match (dget d outer).getD (.vDict []) with
    | .vDict dd =>
      match pyFloat ((dget dd inner).getD (.vInt 0)) with
      | .ok f => .ok f
      | .error _ => .error ()
    | _ => .error ()
  | _ => .error ()

/-- `has_sufficient_liquidity_depth(pair_data)`: liquidity and volume
both positive and volume/liquidity within `[0.1, 5.0]`; exceptions yield
`false`. -/
def has_sufficient_liquidity_depth (pair : PyVal) : Bool :=
  match rawNestedFloat pair "liquidity" "usd" with
  | .error _ => false
  | .ok lf =>
    match rawNestedFloat pair "volume" "h24" with
    | .error _ => false
    | .ok vf =>
      if pfLe lf (.fin 0) || pfLe vf (.fin 0) then false
      else
        match pfDiv vf lf with
        | some r => pfLe (.fin (Rat.divInt 1 10)) r && pfLe r (.fin 5)
        | none => false

/-- `is_pair_age_reasonable(pair_data)` at current time `nowMs`
(epoch milliseconds): pair at least one hour old; unknown creation time
or exceptions yield `true`. -/
def is_pair_age_reasonable (nowMs : ℚ) : PyVal → Bool
  | .vDict d =>
    let pca := (dget d "pairCreatedAt").getD .vNone
    if !pyTruthy pca then true
    else
      match pyNumView pca with
      | none => true
      | some f =>
        match pfDiv (pfSub (.fin nowMs) f) (.fin 3600000) with
        | some ah => pfGe ah (.fin 1)
        | none => true
  | _ => true

/-- `has_token_info(pair_data)`: base name, base symbol and quote symbol
present (non-empty after strip) and free of the suspicious substrings
`test`, `fake`, `scam`, `rug`; exceptions yield `false`. -/
def has_token_info : PyVal → Bool
  | .vDict d =>
    match (dget d "baseToken").getD (.vDict []) with
    | .vDict bt =>
      match (dget d "quoteToken").getD (.vDict []) with
      | .vDict qt =>
        match (dget bt "name").getD (.vStr ""), (dget bt "symbol").getD (.vStr ""),
              (dget qt "symbol").getD (.vStr "") with
        | .vStr n0, .vStr bs0, .vStr qs0 =>
          let bn := trimL n0.data
          let bs := trimL bs0.data
          let qs := trimL qs0.data
          if bn.isEmpty || bs.isEmpty then false
          else if qs.isEmpty then false
          else
            !(["test".data, "fake".data, "scam".data, "rug".data].any (fun pat =>
              containsL (lowerL bn) pat || containsL (lowerL bs) pat ||
              containsL (lowerL qs) pat))
        | _, _, _ => false
      | _ => false
    | _ => false
  | _ => false

/-- `passes_scam_filters(pair_data)`: conjunction of the six checks. -/
def passes_scam_filters (nowMs : ℚ) (pair : PyVal) : Bool :=
  has_sufficient_trading_activity pair && has_balanced_trading pair &&
  has_reasonable_market_cap pair && has_sufficient_liquidity_depth pair &&
  is_pair_age_reasonable nowMs pair && has_token_info pair

/-! ## `src/utils.py` : filter_signals -/

/-- The guarded extraction
`float(data.get(k, 0)) if data.get(k) else 0` with
`data = pair.get(outer, {})`, as in the body of `filter_signals`.
`.error` is an uncaught exception: an `AttributeError` (`.get` on a
non-dict) or an `OverflowError` (`float` of an oversized int), neither of
which is in the loop's `except (ValueError, TypeError, KeyError)` clause;
`.ok none` is a caught `ValueError`/`TypeError` from `float`, which makes
the loop skip the pair. -/
def nestedFloat (pair : PyVal) (outer inner : String) : Except Unit (Option PyFloat) :=
  match pair with
  | .vDict d =>
    match (dget d outer).getD (.vDict []) with
    | .vDict dd =>
      let iv := (dget dd inner).getD (.vInt 0)
      if pyTruthy iv then
        match pyFloat iv with
        | .ok f => .ok (some f)
        | .error .caught => .ok none
        | .error .overflow => .error ()
      else .ok (some (.fin 0))
    | _ => .error ()
  | _ => .error ()

/-- One iteration of the `filter_signals` loop on one pair:
`.error` aborts the whole call (uncaught exception); `.ok true` keeps the
pair, `.ok false` skips it. -/
def processPair (nowMs minV minL minC : ℚ) (pair : PyVal) : Except Unit Bool :=
  match nestedFloat pair "volume" "h24" with
  | .error e => .error e
  | .ok none => .ok false
  | .ok (some v) =>
    match nestedFloat pair "liquidity" "usd" with
    | .error e => .error e
    | .ok none => .ok false
    | .ok (some l) =>
      match nestedFloat pair "priceChange" "h1" with
      | .error e => .error e
      | .ok none => .ok false
      | .ok (some c) =>
        if pfLt v (.fin minV) then .ok false
        else if pfLt l (.fin minL) then .ok false
        else if pfLt (pfAbs c) (.fin minC) then .ok false
        else .ok (passes_scam_filters nowMs pair)

/-- The accumulation loop of `filter_signals`. -/
def filterLoop (nowMs minV minL minC : ℚ) : List PyVal → Except Unit (List PyVal)
  | [] => .ok []
  | p :: ps =>
    match processPair nowMs minV minL minC p with
    | .error e => .error e
    | .ok b =>
      match filterLoop nowMs minV minL minC ps with
      | .error e => .error e
      | .ok rest => .ok (if b then p :: rest else rest)

/-- The sort key `float(x.get("volume", {}).get("h24", 0))` of
`filter_signals`; its exceptions are not caught. -/
def sortKeyE (p : PyVal) : Except Unit PyFloat := rawNestedFloat p "volume" "h24"

/-- The sort key as a float, with a junk value on the raising case (the
sort is only performed when every key computed without an exception). -/
def volKeyF (p : PyVal) : PyFloat :=
  match sortKeyE p with
  | .ok f => f
  | .error _ => .nan

/-- The sort key as a rational (finite keys only; junk value 0 otherwise). -/
def volKeyQ (p : PyVal) : ℚ :=
  match volKeyF p with
  | .fin q => q
  | _ => 0

/-- Stable descending insertion: an element is placed before the first
element whose key is strictly smaller, i.e. after every earlier element
with a greater-or-equal key.  On lists of finite keys this is exactly
Python's stable `sort(key=..., reverse=True)`. -/
def insertByVol (p : PyVal) : List PyVal → List PyVal
  | [] => [p]
  | q :: qs => if pfGe (volKeyF p) (volKeyF q) then p :: q :: qs else q :: insertByVol p qs

/-- Stable sort by 24h volume, descending. -/
def sortByVolDesc (l : List PyVal) : List PyVal := l.foldr insertByVol []

/-- `filter_signals(pairs)` from `src/utils.py`, with the three
`config.py` thresholds as explicit parameters (the source reads them
from module constants) and the current time threaded for the age check.
`.error` is an exception escaping the function. -/
def filter_signalsP (nowMs minV minL minC : ℚ) (pairs : List PyVal) :
    Except Unit (List PyVal) :=
  match filterLoop nowMs minV minL minC pairs with
  | .error e => .error e
  | .ok filtered =>
    if filtered.all (fun p => (sortKeyE p).isOk) then .ok (sortByVolDesc filtered)
    else .error ()

/-- `filter_signals` at the configured thresholds. -/
def filter_signals (nowMs : ℚ) (pairs : List PyVal) : Except Unit (List PyVal) :=
  filter_signalsP nowMs MIN_VOLUME MIN_LIQUIDITY MIN_PRICE_CHANGE pairs

/-! ## `src/safe_utils.py` : retry_with_exponential_backoff

The wrapped operation is modelled as `op : Nat → Except E A`, giving the
outcome of its `i`-th invocation (attempt indices start at 0).  The
backoff sleeps do not influence the control flow and are omitted.  The
loop `for attempt in range(max_retries + 1)` is modelled with the number
of attempts still allowed after the current one (`remaining = 0` exactly
at the final attempt, where the code compares `attempt == max_retries`).
Alongside the result the model counts how many times `op` was invoked. -/

/-- The retry loop from attempt `attempt` with `remaining` further
attempts allowed; returns the final outcome and the invocation count. -/
def retryCountdown {E A : Type} (op : Nat → Except E A) :
    Nat → Nat → Except E A × Nat
  | attempt, 0 =>
    match op attempt with
    | .ok a => (.ok a, 1)
    | .error e => (.error e, 1)
  | attempt, remaining + 1 =>
    match op attempt with
    | .ok a => (.ok a, 1)
    | .error _ =>
      let r := retryCountdown op (attempt + 1) remaining
      (r.1, r.2 + 1)

/-- The wrapper produced by `retry_with_exponential_backoff(max_retries, ...)`
applied to `op`: result of the call together with how many times the
wrapped operation ran. -/
def retry_with_backoff {E A : Type} (op : Nat → Except E A) (max_retries : Nat) :
    Except E A × Nat :=
  retryCountdown op 0 max_retries

/-! ## `src/bot.py` : MemorySafeJobManager

Jobs are kept in insertion order (Python dicts preserve it); the
scheduler handle is reduced to its `removed` flag, and cancelling a
schedule (`schedule_removal`) is recorded by returning the evicted names. -/

structure JobInfo where
  created : ℚ
  removed : Bool
deriving DecidableEq, Repr

structure JobManager where
  jobs : List (String × JobInfo)
  max_jobs : Nat
  last_cleanup : ℚ
  cleanup_interval : ℚ
deriving DecidableEq, Repr

/-- A fresh manager: `max_jobs = 20`, `cleanup_interval = 600`. -/
def JobManager.init (now : ℚ) : JobManager :=
  { jobs := [], max_jobs := 20, last_cleanup := now, cleanup_interval := 600 }

/-- `_cleanup_completed_jobs`: drop jobs whose handle reports removed. -/
def cleanupCompletedJobs (jobs : List (String × JobInfo)) : List (String × JobInfo) :=
  jobs.filter (fun j => !j.2.removed)

/-- `_maybe_cleanup`: sweep completed jobs when the cleanup interval has
elapsed. -/
def maybeCleanup (st : JobManager) (now : ℚ) : JobManager :=
  if st.cleanup_interval < qSub now st.last_cleanup then
    { st with jobs := cleanupCompletedJobs st.jobs, last_cleanup := now }
  else st

/-- Age threshold (seconds) of `_force_cleanup`. -/
def JOB_RETENTION : ℚ := 3600

/-- `_force_cleanup`: drop every job strictly older than one hour,
regardless of completion state; returns the surviving jobs and the names
whose schedules were cancelled. -/
def forceCleanup (jobs : List (String × JobInfo)) (now : ℚ) :
    List (String × JobInfo) × List String :=
  (jobs.filter (fun j => !(decide (JOB_RETENTION < qSub now j.2.created))),
   (jobs.filter (fun j => decide (JOB_RETENTION < qSub now j.2.created))).map
     (fun j => j.1))

/-- Python dict assignment `jobs[name] = info`: overwrite in place when
the key exists, append otherwise. -/
def dictInsert (jobs : List (String × JobInfo)) (name : String) (info : JobInfo) :
    List (String × JobInfo) :=
  if jobs.any (fun j => j.1 = name) then
    jobs.map (fun j => if j.1 = name then (name, info) else j)
  else jobs ++ [(name, info)]

/-- `MemorySafeJobManager.add_job` at time `now` registering `name`:
maybe-cleanup, forced cleanup when at capacity, then insertion of the new
job; returns the new state and the names evicted by the forced cleanup. -/
def add_job (st : JobManager) (now : ℚ) (name : String) : JobManager × List String :=
  let st1 := maybeCleanup st now
  let fc := if st1.max_jobs ≤ st1.jobs.length then forceCleanup st1.jobs now
            else (st1.jobs, [])
  ({ st1 with jobs := dictInsert fc.1 name { created := now, removed := false } }, fc.2)

/-! ## The pipeline entry point -/

/-- Modelled from the spec: the repository's dex screener module with the
`get_filtered_signals(limit)` entry point is not under `src/` (the file
`src/dex/screener.py` holds bot code; only callers of the screener are
present).  Per §4.5–§4.7 and §6 of the spec the entry point validates the
fetched records structurally (§4.2, `validate_pair_data`), runs the
filter/ranking stage (`filter_signals`) and truncates to `limit`.  The
fetched record list is passed explicitly in place of the network fetch.
An exception escaping the validator (the `OverflowError` path) or the
filter aborts the call. -/
def validateLoop : List PyVal → Except Unit (List PyVal)
  | [] => .ok []
  | p :: ps =>
    match validate_pair_data p with
    | .error e => .error e
    | .ok b =>
      match validateLoop ps with
      | .error e => .error e
      | .ok rest => .ok (if b then p :: rest else rest)

/-- See `validateLoop`; this is the spec-modelled entry point itself. -/
def get_filtered_signals (nowMs : ℚ) (limit : Nat) (fetched : List PyVal) :
    Except Unit (List PyVal) :=
  match validateLoop fetched with
  | .error e => .error e
  | .ok valid => (filter_signals nowMs valid).map (fun l => l.take limit)

/-! ## The spec's end-to-end fixture (§8), completed to concrete records

The spec fixes each record's volume, liquidity, 1h change, 1h buys/sells
and market cap; the remaining fields (token names/symbols, price, 24h
transactions) are completed with values that pass every check they are
involved in, so that each record's fate depends only on the fields the
spec pins down. -/

def pairA : PyVal := .vDict
  [("baseToken", .vDict [("name", .vStr "Alpha"), ("symbol", .vStr "AAA")]),
   ("quoteToken", .vDict [("symbol", .vStr "SOL")]),
   ("priceUsd", .vStr "1.5"),
   ("volume", .vDict [("h24", .vInt 20000)]),
   ("liquidity", .vDict [("usd", .vInt 8000)]),
   ("priceChange", .vDict [("h1", .vInt 15)]),
   ("txns", .vDict [("h1", .vDict [("buys", .vInt 30), ("sells", .vInt 20)]),
                    ("h24", .vDict [("buys", .vInt 300), ("sells", .vInt 200)])]),
   ("marketCap", .vInt 10000)]

def pairB : PyVal := .vDict
  [("baseToken", .vDict [("name", .vStr "Beta"), ("symbol", .vStr "BBB")]),
   ("quoteToken", .vDict [("symbol", .vStr "SOL")]),
   ("priceUsd", .vStr "0.5"),
   ("volume", .vDict [("h24", .vInt 5000)]),
   ("liquidity", .vDict [("usd", .vInt 8000)]),
   ("priceChange", .vDict [("h1", .vInt 15)]),
   ("txns", .vDict [("h1", .vDict [("buys", .vInt 30), ("sells", .vInt 20)]),
                    ("h24", .vDict [("buys", .vInt 300), ("sells", .vInt 200)])]),
   ("marketCap", .vInt 10000)]

/-- Structurally invalid: the `quoteToken` key is missing. -/
def pairC : PyVal := .vDict
  [("baseToken", .vDict [("name", .vStr "Gamma"), ("symbol", .vStr "CCC")]),
   ("priceUsd", .vStr "1.0"),
   ("volume", .vDict [("h24", .vInt 60000)]),
   ("liquidity", .vDict [("usd", .vInt 20000)]),
   ("priceChange", .vDict [("h1", .vInt 15)]),
   ("txns", .vDict [("h1", .vDict [("buys", .vInt 30), ("sells", .vInt 20)]),
                    ("h24", .vDict [("buys", .vInt 300), ("sells", .vInt 200)])]),
   ("marketCap", .vInt 10000)]

def pairD : PyVal := .vDict
  [("baseToken", .vDict [("name", .vStr "Delta"), ("symbol", .vStr "DDD")]),
   ("quoteToken", .vDict [("symbol", .vStr "SOL")]),
   ("priceUsd", .vStr "2.0"),
   ("volume", .vDict [("h24", .vInt 50000)]),
   ("liquidity", .vDict [("usd", .vInt 20000)]),
   ("priceChange", .vDict [("h1", .vInt (-12))]),
   ("txns", .vDict [("h1", .vDict [("buys", .vInt 5), ("sells", .vInt 95)]),
                    ("h24", .vDict [("buys", .vInt 50), ("sells", .vInt 950)])]),
   ("marketCap", .vInt 10000)]

/-- A record that passes every filter at the configured thresholds
(volume 50000, liquidity 20000, ratio 2.5, balanced 30/20 trading). -/
def pairE : PyVal := .vDict
  [("baseToken", .vDict [("name", .vStr "Echo"), ("symbol", .vStr "EEE")]),
   ("quoteToken", .vDict [("symbol", .vStr "SOL")]),
   ("priceUsd", .vStr "1.0"),
   ("volume", .vDict [("h24", .vInt 50000)]),
   ("liquidity", .vDict [("usd", .vInt 20000)]),
   ("priceChange", .vDict [("h1", .vInt 15)]),
   ("txns", .vDict [("h1", .vDict [("buys", .vInt 30), ("sells", .vInt 20)]),
                    ("h24", .vDict [("buys", .vInt 300), ("sells", .vInt 200)])]),
   ("marketCap", .vInt 10000)]

/-- A second accepted record with the same 24h volume as `pairE`. -/
def pairF : PyVal := .vDict
  [("baseToken", .vDict [("name", .vStr "Fox"), ("symbol", .vStr "FFF")]),
   ("quoteToken", .vDict [("symbol", .vStr "SOL")]),
   ("priceUsd", .vStr "1.0"),
   ("volume", .vDict [("h24", .vInt 50000)]),
   ("liquidity", .vDict [("usd", .vInt 20000)]),
   ("priceChange", .vDict [("h1", .vInt 15)]),
   ("txns", .vDict [("h1", .vDict [("buys", .vInt 30), ("sells", .vInt 20)]),
                    ("h24", .vDict [("buys", .vInt 300), ("sells", .vInt 200)])]),
   ("marketCap", .vInt 10000)]

/-! ## Auxiliary definitions used by the claim statements -/

/-- The amended validator contract, stated from the code: the record is a
dict carrying the keys `baseToken`, `quoteToken` and `priceUsd`, the two
token values are dicts whose `symbol` values are truthy (for strings:
non-empty WITHOUT trimming), and the `priceUsd` coercion returns (does
not raise) a strictly positive number. -/
def validRecord (p : PyVal) : Prop :=
  ∃ d bt qt, p = .vDict d ∧
    dget d "baseToken" = some (.vDict bt) ∧
    dget d "quoteToken" = some (.vDict qt) ∧
    (dget d "priceUsd").isSome = true ∧
    pyTruthy ((dget bt "symbol").getD .vNone) = true ∧
    pyTruthy ((dget qt "symbol").getD .vNone) = true ∧
    ∃ q, safe_float_convert ((dget d "priceUsd").getD .vNone) 0 = .ok q ∧ 0 < q

/-- Does the record have a `baseToken.symbol` key at all? -/
def hasBaseSymbol : PyVal → Bool
  | .vDict d =>
    match dget d "baseToken" with
    | some (.vDict bt) => (dget bt "symbol").isSome
    | _ => false
  | _ => false

/-- The acceptance decision of the filtering stage as a boolean. -/
def acceptedB (nowMs minV minL minC : ℚ) (p : PyVal) : Bool :=
  match processPair nowMs minV minL minC p with
  | .ok true => true
  | _ => false

/-- The `outer` value, when the key is present, is a dict (no
`AttributeError` from `.get` on it), and its `inner` value, when present,
is not an int of float-overflowing magnitude (no uncaught `OverflowError`
from `float`). -/
def fieldOk (d : List (String × PyVal)) (outer inner : String) : Bool :=
  match dget d outer with
  | none => true
  | some (.vDict dd) =>
    match dget dd inner with
    | some (.vInt n) => !intTooBig n
    | _ => true
  | some _ => false

/-- Records on which the loop of `filter_signals` cannot hit an uncaught
exception: the three outer field values are dict-shaped when present and
their inner numeric slots are not oversized ints. -/
def wellShaped : PyVal → Bool
  | .vDict d => fieldOk d "volume" "h24" && fieldOk d "liquidity" "usd" &&
      fieldOk d "priceChange" "h1"
  | _ => false

/-- A registry at capacity: 18 fresh active jobs, one completed job, and
one job created beyond the retention threshold. -/
def ceJobs : List (String × JobInfo) :=
  [("j01", ⟨9990, false⟩), ("j02", ⟨9990, false⟩), ("j03", ⟨9990, false⟩),
   ("j04", ⟨9990, false⟩), ("j05", ⟨9990, false⟩), ("j06", ⟨9990, false⟩),
   ("j07", ⟨9990, false⟩), ("j08", ⟨9990, false⟩), ("j09", ⟨9990, false⟩),
   ("j10", ⟨9990, false⟩), ("j11", ⟨9990, false⟩), ("j12", ⟨9990, false⟩),
   ("j13", ⟨9990, false⟩), ("j14", ⟨9990, false⟩), ("j15", ⟨9990, false⟩),
   ("j16", ⟨9990, false⟩), ("j17", ⟨9990, false⟩), ("j18", ⟨9990, false⟩),
   ("done", ⟨9990, true⟩), ("old", ⟨5000, false⟩)]

/-- The counterexample registry: at capacity, with a stale last-cleanup
timestamp so the maybe-cleanup sweep fires on the next registration. -/
def ceManager : JobManager :=
  { jobs := ceJobs, max_jobs := 20, last_cleanup := 9000, cleanup_interval := 600 }

/-- The same registry, but with the cleanup interval not yet elapsed. -/
def stW : JobManager :=
  { jobs := ceJobs, max_jobs := 20, last_cleanup := 10000, cleanup_interval := 600 }

/-! ## Bridge lemmas: the reducible arithmetic agrees with the field operations -/

theorem qAdd_eq (a b : ℚ) : qAdd a b = a + b := by
  have ha : (a.den : ℤ) ≠ 0 := Int.natCast_ne_zero.mpr a.den_nz
  have hb : (b.den : ℤ) ≠ 0 := Int.natCast_ne_zero.mpr b.den_nz
  rw [qAdd, ← Rat.divInt_add_divInt _ _ ha hb, Rat.num_divInt_den, Rat.num_divInt_den]

theorem qSub_eq (a b : ℚ) : qSub a b = a - b := by
  have ha : (a.den : ℤ) ≠ 0 := Int.natCast_ne_zero.mpr a.den_nz
  have hb : (b.den : ℤ) ≠ 0 := Int.natCast_ne_zero.mpr b.den_nz
  rw [qSub, ← Rat.divInt_sub_divInt _ _ ha hb, Rat.num_divInt_den, Rat.num_divInt_den]

theorem qDiv_eq (a b : ℚ) : qDiv a b = a / b := by
  rw [qDiv, ← Rat.divInt_div_divInt, Rat.num_divInt_den, Rat.num_divInt_den]

theorem qNeg_eq (a : ℚ) : qNeg a = -a := by
  rw [qNeg, ← Rat.neg_divInt, Rat.num_divInt_den]

theorem qAbs_eq (a : ℚ) : qAbs a = |a| := (Rat.abs_def a).symm

/-! ## Claim C2 : coercion totality -/

/-- C2, counterexample.  `safe_float_convert` is NOT total: on the
integer `10 ^ 400` the numeric branch calls `math.isnan(value)` outside
any `try`, raising an uncaught `OverflowError` — the coercion raises
instead of returning a float. -/
theorem coercion_overflow_counterexample :
    safe_float_convert (.vInt (ipow 10 400)) 0 = .error () ∧
    ∀ q : ℚ, (Except.error () : Except Unit ℚ) ≠ .ok q :=
  ⟨rfl, fun _ h => by cases h⟩

/-- C2, amended.  Coercion near-totality: for every input that is not an
int of magnitude at least `2 ^ 1024`, `safe_float_convert` never raises
and returns exactly what the spec's coercion rules (`toFloat_spec`)
prescribe — the default for `None`, empty or whitespace-only strings, the
literal tokens `null`/`none`/`undefined`, non-finite values and
unparseable strings, and the parsed value for valid finite numeric
strings and numeric types; on an oversized int, however, it raises an
uncaught `OverflowError` (from `math.isnan`). -/
theorem coercion_totality_amended :
    (∀ (v : PyVal) (d : ℚ), intTooBigV v = false →
        safe_float_convert v d = .ok (toFloat_spec v d)) ∧
    (∀ (n : Int) (d : ℚ), intTooBig n = true →
        safe_float_convert (.vInt n) d = .error ()) := by
  constructor
  · intro v d hv
    cases v <;> try rfl
    case vInt n =>
      simp only [intTooBigV] at hv
      simp [safe_float_convert, toFloat_spec, hv]
    case vStr s =>
      simp only [safe_float_convert, toFloat_spec]
      by_cases h : (trimL s.data).isEmpty ∨
          lowerL (trimL s.data) ∈ ["null".data, "none".data, "undefined".data]
      · have hb : ((trimL s.data).isEmpty || lowerL (trimL s.data) = "null".data ||
            lowerL (trimL s.data) = "none".data ||
            lowerL (trimL s.data) = "undefined".data) = true := by
          simp only [List.mem_cons, List.not_mem_nil, or_false] at h
          rcases h with h | h | h | h <;> simp [h]
        rw [if_pos hb, if_pos h]
      · have hb : ((trimL s.data).isEmpty || lowerL (trimL s.data) = "null".data ||
            lowerL (trimL s.data) = "none".data ||
            lowerL (trimL s.data) = "undefined".data) = false := by
          simp only [List.mem_cons, List.not_mem_nil, or_false, not_or] at h
          obtain ⟨h1, h2, h3, h4⟩ := h
          simp [h1, h2, h3, h4]
        rw [if_neg (by simp [hb]), if_neg h]
        cases hp : parsePyFloat (trimL s.data) with
        | none => rfl
        | some f => cases f <;> rfl
  · intro n d hn
    simp [safe_float_convert, hn]

/-- Witness for C2: a valid numeric string is coerced per the spec, and a
concrete oversized int raises. -/
theorem coercion_totality_amended_witness :
    safe_float_convert (.vStr " 3.5 ") 2 = .ok (toFloat_spec (.vStr " 3.5 ") 2) ∧
    safe_float_convert (.vInt (ipow 10 400)) 2 = .error () :=
  ⟨coercion_totality_amended.1 (.vStr " 3.5 ") 2 rfl,
   coercion_totality_amended.2 (ipow 10 400) 2 rfl⟩

/-! ## Claim C3 : retry bound -/

theorem retryCountdown_allFail {E A : Type} (op : Nat → Except E A)
    (h : ∀ i, (op i).isOk = false) :
    ∀ remaining attempt,
      retryCountdown op attempt remaining = (op (attempt + remaining), remaining + 1) := by
  intro remaining
  induction remaining with
  | zero =>
    intro attempt
    cases hop : op attempt with
    | ok a => exact absurd (h attempt) (by simp [hop, Except.isOk, Except.toBool])
    | error e => simp [retryCountdown, hop]
  | succ r ih =>
    intro attempt
    cases hop : op attempt with
    | ok a => exact absurd (h attempt) (by simp [hop, Except.isOk, Except.toBool])
    | error e =>
      have harg : attempt + 1 + r = attempt + (r + 1) := by omega
      simp only [retryCountdown, hop, ih (attempt + 1), harg]

/-- C3.  Retry bound: for an operation that fails on every invocation,
the wrapper built with `max_retries = 3` invokes the operation exactly
4 times, and the call's outcome is precisely the final attempt's error,
re-raised to the caller. -/
theorem retry_bound {E A : Type} (op : Nat → Except E A)
    (h : ∀ i, (op i).isOk = false) :
    (retry_with_backoff op 3).2 = 4 ∧ (retry_with_backoff op 3).1 = op 3 := by
  have := retryCountdown_allFail op h 3 0
  rw [retry_with_backoff, this]
  exact ⟨rfl, rfl⟩

/-- Witness for C3 at a concrete always-failing operation. -/
theorem retry_bound_witness :
    (retry_with_backoff (fun i => (.error i : Except Nat Unit)) 3).2 = 4 ∧
    (retry_with_backoff (fun i => (.error i : Except Nat Unit)) 3).1 = .error 3 :=
  retry_bound (fun i => (.error i : Except Nat Unit)) (fun _ => rfl)

/-! ## Claim C1 : the end-to-end scenario -/

/-- C1, counterexample.  On the spec's four-record fixture the pipeline
returns the empty list, not `[A]`: with the configured thresholds
(`MIN_VOLUME = 50000`, `MIN_LIQUIDITY = 10000`) record A is rejected by
the basic filters as well. -/
theorem end_to_end_counterexample :
    get_filtered_signals 0 5 [pairA, pairB, pairC, pairD] = .ok [] ∧
    (Except.ok [] : Except Unit (List PyVal)) ≠ .ok [pairA] :=
  ⟨rfl, by simp⟩

/-- C1, amended.  On the fixture the pipeline rejects all four records
and returns the empty list: A and B fall below the volume floor
(`MIN_VOLUME = 50000`; A is also below the liquidity floor), C fails
structural validation (missing `quoteToken`), and D fails the balance
check (buy ratio 0.05). -/
theorem end_to_end_fixture_all_rejected :
    get_filtered_signals 0 5 [pairA, pairB, pairC, pairD] = .ok [] ∧
    pfLt (volKeyF pairA) (.fin MIN_VOLUME) = true ∧
    pfLt (volKeyF pairB) (.fin MIN_VOLUME) = true ∧
    validate_pair_data pairC = .ok false ∧
    has_balanced_trading pairD = false :=
  ⟨rfl, rfl, rfl, rfl, rfl⟩

/-! ## Claim C7 : the balance check -/

/-- C7, counterexample.  A pair with 1 buy and 5 sells has buy ratio
`1/6 ∈ [0.15, 0.85]`, so the claimed interval would accept it, but
`has_balanced_trading` rejects it (the code's interval is `[0.2, 0.8]`). -/
theorem balance_interval_counterexample :
    has_balanced_trading (.vDict [("txns", .vDict [("h1",
      .vDict [("buys", .vInt 1), ("sells", .vInt 5)])])]) = false ∧
    (15 / 100 : ℚ) ≤ 1 / (1 + 5) ∧ (1 / (1 + 5) : ℚ) ≤ 85 / 100 :=
  ⟨rfl, by norm_num, by norm_num⟩

/-- C7, amended.  Balance check: for every record whose 1h transaction
counts are the integers `b` buys and `s` sells with `b + s > 0`, the
balance predicate accepts exactly when the buy ratio `b / (b + s)` lies
within the closed interval `[0.2, 0.8]` (the code's bounds, not the
spec's `[0.15, 0.85]`). -/
theorem balance_check_amended (d t h1 : List (String × PyVal)) (b s : ℕ)
    (hd : dget d "txns" = some (.vDict t))
    (ht : dget t "h1" = some (.vDict h1))
    (hb : dget h1 "buys" = some (.vInt b))
    (hs : dget h1 "sells" = some (.vInt s))
    (hpos : 0 < b + s) :
    has_balanced_trading (.vDict d) = true ↔
      (1 / 5 : ℚ) ≤ (b : ℚ) / (b + s) ∧ ((b : ℚ) / (b + s)) ≤ 4 / 5 := by
  have hsum : qAdd ((b : ℤ) : ℚ) ((s : ℤ) : ℚ) = ((b : ℚ) + (s : ℚ)) := by
    rw [qAdd_eq]; push_cast; ring
  have hne : ((b : ℚ) + (s : ℚ)) ≠ 0 := by
    have : (0 : ℚ) < (b : ℚ) + (s : ℚ) := by exact_mod_cast hpos
    exact this.ne'
  simp only [has_balanced_trading, hd, ht, hb, hs, Option.getD_some, pyNumView,
    pfAdd, hsum, pfEq0, pfDiv, pfLe, decide_eq_true_eq]
  rw [if_neg (by simpa using hne), if_neg hne]
  simp only [qDiv_eq, Bool.and_eq_true, decide_eq_true_eq]
  rw [Rat.divInt_eq_div, Rat.divInt_eq_div]
  push_cast
  constructor
  · rintro ⟨hl, hr⟩
    exact ⟨by linarith, by linarith⟩
  · rintro ⟨hl, hr⟩
    exact ⟨by linarith, by linarith⟩

/-- Witness for C7 at a concrete balanced record (30 buys, 20 sells,
ratio 0.6). -/
theorem balance_check_amended_witness :
    has_balanced_trading (.vDict [("txns", .vDict [("h1",
      .vDict [("buys", .vInt 30), ("sells", .vInt 20)])])]) = true :=
  (balance_check_amended
      [("txns", .vDict [("h1", .vDict [("buys", .vInt 30), ("sells", .vInt 20)])])]
      [("h1", .vDict [("buys", .vInt 30), ("sells", .vInt 20)])]
      [("buys", .vInt 30), ("sells", .vInt 20)]
      30 20 rfl rfl rfl rfl (by norm_num)).mpr (by norm_num)

/-! ## Claim C8 : the activity floor -/

/-- C8, counterexample.  A record with total 1h transaction count
`3 + 2 = 5 < 10` is accepted by `has_sufficient_trading_activity`
(together with enough 24h activity), so the predicate does not implement
the claimed floor of 10 on the 1h count. -/
theorem activity_floor_counterexample :
    has_sufficient_trading_activity (.vDict [("txns", .vDict
      [("h1", .vDict [("buys", .vInt 3), ("sells", .vInt 2)]),
       ("h24", .vDict [("buys", .vInt 10), ("sells", .vInt 10)])])]) = true ∧
    3 + 2 < 10 :=
  ⟨rfl, by norm_num⟩

/-- C8, amended.  Activity floor: for integer transaction counts the
predicate accepts exactly when the total 1h count is at least 5 AND the
total 24h count is at least 20 (not a single floor of 10 on the 1h
count); and when the transaction data is absent entirely the predicate
rejects the record. -/
theorem activity_floor_amended :
    (∀ (d t h1 h24 : List (String × PyVal)) (b1 s1 b24 s24 : ℕ),
      dget d "txns" = some (.vDict t) →
      dget t "h1" = some (.vDict h1) →
      dget h1 "buys" = some (.vInt b1) →
      dget h1 "sells" = some (.vInt s1) →
      dget t "h24" = some (.vDict h24) →
      dget h24 "buys" = some (.vInt b24) →
      dget h24 "sells" = some (.vInt s24) →
      (has_sufficient_trading_activity (.vDict d) = true ↔
        5 ≤ b1 + s1 ∧ 20 ≤ b24 + s24)) ∧
    (∀ d : List (String × PyVal), dget d "txns" = none →
      has_sufficient_trading_activity (.vDict d) = false) := by
  constructor
  · intro d t h1 h24 b1 s1 b24 s24 hd ht hb1 hs1 ht24 hb24 hs24
    have e1 : qAdd ((b1 : ℤ) : ℚ) ((s1 : ℤ) : ℚ) = (((b1 + s1 : ℕ) : ℤ) : ℚ) := by
      rw [qAdd_eq]; push_cast; ring
    have e24 : qAdd ((b24 : ℤ) : ℚ) ((s24 : ℤ) : ℚ) = (((b24 + s24 : ℕ) : ℤ) : ℚ) := by
      rw [qAdd_eq]; push_cast; ring
    simp only [has_sufficient_trading_activity, hd, ht, hb1, hs1, ht24, hb24, hs24,
      Option.getD_some, pyNumView, pfAdd, e1, e24, pfGe, pfLe,
      Bool.and_eq_true, decide_eq_true_eq]
    constructor
    · rintro ⟨x, y⟩
      exact ⟨by exact_mod_cast x, by exact_mod_cast y⟩
    · rintro ⟨x, y⟩
      exact ⟨by exact_mod_cast x, by exact_mod_cast y⟩
  · intro d hd
    simp [has_sufficient_trading_activity, hd, pyNumView, dget, pfAdd, pfGe, pfLe, qAdd]

/-- Witness for C8 at a concrete active record (30+20 transactions in
1h, 300+200 in 24h) and a concrete record with no transaction data. -/
theorem activity_floor_amended_witness :
    has_sufficient_trading_activity (.vDict [("txns", .vDict
      [("h1", .vDict [("buys", .vInt 30), ("sells", .vInt 20)]),
       ("h24", .vDict [("buys", .vInt 300), ("sells", .vInt 200)])])]) = true ∧
    has_sufficient_trading_activity (.vDict [("liquidity", .vDict [])]) = false :=
  ⟨(activity_floor_amended.1
      [("txns", .vDict [("h1", .vDict [("buys", .vInt 30), ("sells", .vInt 20)]),
        ("h24", .vDict [("buys", .vInt 300), ("sells", .vInt 200)])])]
      [("h1", .vDict [("buys", .vInt 30), ("sells", .vInt 20)]),
       ("h24", .vDict [("buys", .vInt 300), ("sells", .vInt 200)])]
      [("buys", .vInt 30), ("sells", .vInt 20)]
      [("buys", .vInt 300), ("sells", .vInt 200)]
      30 20 300 200 rfl rfl rfl rfl rfl rfl rfl).mpr (by norm_num),
   activity_floor_amended.2 [("liquidity", .vDict [])] rfl⟩

/-! ## Claim C4 : the validator contract -/

/-- C4, counterexample.  The validator accepts a record whose base
symbol is the single-space string, although that symbol is empty after
trimming — the code tests Python truthiness of the raw value, it never
trims. -/
theorem validator_whitespace_counterexample :
    validate_pair_data (.vDict [("baseToken", .vDict [("symbol", .vStr " ")]),
      ("quoteToken", .vDict [("symbol", .vStr "W")]),
      ("priceUsd", .vStr "1.0")]) = .ok true ∧
    trimL " ".data = [] :=
  ⟨rfl, rfl⟩

/-- C4, amended.  Validator contract: `validate_pair_data` returns True
exactly when the record satisfies `validRecord` — a keyed mapping whose
`baseToken`/`quoteToken` are mappings with truthy (untrimmed) symbol
values and whose `priceUsd` coercion returns a strictly positive number
(it instead raises an uncaught `OverflowError` when the symbol checks
pass but `priceUsd` is an int of magnitude at least `2 ^ 1024`); in
particular every record missing `baseToken.symbol` is rejected. -/
theorem validator_contract_amended :
    (∀ p, validate_pair_data p = .ok true ↔ validRecord p) ∧
    (∀ p, hasBaseSymbol p = false → validate_pair_data p = .ok false) := by
  have main : ∀ p, validate_pair_data p = .ok true ↔ validRecord p := by
    intro p
    cases p with
    | vNone => simp [validate_pair_data, validRecord]
    | vStr s => simp [validate_pair_data, validRecord]
    | vInt n => simp [validate_pair_data, validRecord]
    | vFlt q => simp [validate_pair_data, validRecord]
    | vNaN => simp [validate_pair_data, validRecord]
    | vInf b => simp [validate_pair_data, validRecord]
    | vOther => simp [validate_pair_data, validRecord]
    | vDict d =>
      simp only [validate_pair_data]
      cases hbt : dget d "baseToken" with
      | none => simp [validRecord, hbt]
      | some bt0 =>
        cases hqt : dget d "quoteToken" with
        | none => simp [validRecord, hbt, hqt]
        | some qt0 =>
          cases hpu : dget d "priceUsd" with
          | none => simp [validRecord, hbt, hqt, hpu]
          | some pu =>
            simp only [Option.isNone_some, Bool.false_eq_true, if_false,
              Option.getD_some]
            cases bt0 <;> try simp [validRecord, hbt, hqt, hpu]
            case vDict bt =>
              cases qt0 with
              | vDict qt =>
                by_cases h1 : pyTruthy ((dget bt "symbol").getD .vNone) = true
                · by_cases h2 : pyTruthy ((dget qt "symbol").getD .vNone) = true
                  · cases hsf : safe_float_convert pu 0 with
                    | error e => simp [validRecord, hbt, hqt, hpu, h1, h2, hsf]
                    | ok price => simp [validRecord, hbt, hqt, hpu, h1, h2, hsf]
                  · have h2f : pyTruthy ((dget qt "symbol").getD .vNone) = false := by
                      cases hx : pyTruthy ((dget qt "symbol").getD .vNone) with
                      | false => rfl
                      | true => exact absurd hx h2
                    simp [validRecord, hbt, hqt, hpu, h1, h2f]
                · have h1f : pyTruthy ((dget bt "symbol").getD .vNone) = false := by
                    cases hx : pyTruthy ((dget bt "symbol").getD .vNone) with
                    | false => rfl
                    | true => exact absurd hx h1
                  simp [validRecord, hbt, hqt, hpu, h1f]
              | vNone => simp [validRecord, hbt, hqt, hpu]
              | vStr s => simp [validRecord, hbt, hqt, hpu]
              | vInt n => simp [validRecord, hbt, hqt, hpu]
              | vFlt q => simp [validRecord, hbt, hqt, hpu]
              | vNaN => simp [validRecord, hbt, hqt, hpu]
              | vInf b => simp [validRecord, hbt, hqt, hpu]
              | vOther => simp [validRecord, hbt, hqt, hpu]
  refine ⟨main, ?_⟩
  intro p hmiss
  cases p with
  | vDict d =>
    simp only [hasBaseSymbol] at hmiss
    simp only [validate_pair_data]
    cases hbt : dget d "baseToken" with
    | none => simp [hbt]
    | some v =>
      cases hqt : dget d "quoteToken" with
      | none => simp [hbt, hqt]
      | some q2 =>
        cases hpu : dget d "priceUsd" with
        | none => simp [hbt, hqt, hpu]
        | some pu =>
          cases v with
          | vDict bt =>
            simp only [hbt] at hmiss
            have hs : dget bt "symbol" = none := by
              cases hx : dget bt "symbol" with
              | none => rfl
              | some w => simp [hx] at hmiss
            cases q2 <;> simp [hbt, hqt, hpu, hs, pyTruthy]
          | vNone => simp [hbt, hqt, hpu]
          | vStr s => simp [hbt, hqt, hpu]
          | vInt n => simp [hbt, hqt, hpu]
          | vFlt q => simp [hbt, hqt, hpu]
          | vNaN => simp [hbt, hqt, hpu]
          | vInf b => simp [hbt, hqt, hpu]
          | vOther => simp [hbt, hqt, hpu]
  | vNone => rfl
  | vStr s => rfl
  | vInt n => rfl
  | vFlt q => rfl
  | vNaN => rfl
  | vInf b => rfl
  | vOther => rfl

/-- Witness for C4: a concrete valid record is accepted, via the amended
contract, and a concrete record missing `baseToken.symbol` is rejected. -/
theorem validator_contract_amended_witness :
    validate_pair_data (.vDict [("baseToken", .vDict [("symbol", .vStr "AAA")]),
      ("quoteToken", .vDict [("symbol", .vStr "SOL")]),
      ("priceUsd", .vStr "1.5")]) = .ok true ∧
    validate_pair_data (.vDict [("baseToken", .vDict [("name", .vStr "Alpha")]),
      ("quoteToken", .vDict [("symbol", .vStr "SOL")]),
      ("priceUsd", .vStr "1.5")]) = .ok false :=
  ⟨(validator_contract_amended.1 _).mpr
      ⟨[("baseToken", .vDict [("symbol", .vStr "AAA")]),
        ("quoteToken", .vDict [("symbol", .vStr "SOL")]),
        ("priceUsd", .vStr "1.5")],
       [("symbol", .vStr "AAA")], [("symbol", .vStr "SOL")],
       rfl, rfl, rfl, rfl, rfl, rfl, Rat.divInt 3 2, rfl, by decide⟩,
   validator_contract_amended.2 _ rfl⟩

/-! ## Shared lemmas about the filtering stage -/

theorem pfLt_fin_mono {x : PyFloat} {v1 v2 : ℚ} (h12 : v1 ≤ v2)
    (h : pfLt x (.fin v2) = false) : pfLt x (.fin v1) = false := by
  cases x with
  | fin a =>
    simp only [pfLt, decide_eq_false_iff_not, not_lt] at h ⊢
    linarith
  | nan => rfl
  | inf b => simpa [pfLt] using h

theorem processPair_ok_true {nowMs minV minL minC : ℚ} {p : PyVal}
    (h : processPair nowMs minV minL minC p = .ok true) :
    passes_scam_filters nowMs p = true := by
  unfold processPair at h
  repeat' split at h
  all_goals first
    | exact Except.ok.inj h
    | exact absurd h (by simp)

/-! ## Claim C5 : filter monotonicity -/

/-- C5.  Filter monotonicity: for fixed liquidity and price-change
thresholds and a fixed record, raising the volume threshold strictly from
`v1` to `v2` can only shrink the accepted set — any record accepted by
the filtering stage at `MIN_VOLUME = v2` is also accepted at
`MIN_VOLUME = v1`. -/
theorem filter_monotone (nowMs minL minC v1 v2 : ℚ) (p : PyVal)
    (h12 : v1 < v2)
    (hacc : processPair nowMs v2 minL minC p = .ok true) :
    processPair nowMs v1 minL minC p = .ok true := by
  unfold processPair at hacc ⊢
  cases hv : nestedFloat p "volume" "h24" with
  | error e => simp [hv] at hacc
  | ok ov =>
    simp only [hv] at hacc ⊢
    cases ov with
    | none => simp at hacc
    | some v =>
      cases hl : nestedFloat p "liquidity" "usd" with
      | error e => simp [hl] at hacc
      | ok ol =>
        simp only [hl] at hacc ⊢
        cases ol with
        | none => simp at hacc
        | some lq =>
          cases hc : nestedFloat p "priceChange" "h1" with
          | error e => simp [hc] at hacc
          | ok oc =>
            simp only [hc] at hacc ⊢
            cases oc with
            | none => simp at hacc
            | some c =>
              by_cases hv2 : pfLt v (.fin v2) = true
              · simp [hv2] at hacc
              · have hv2f : pfLt v (.fin v2) = false := by
                  cases hx : pfLt v (.fin v2) with
                  | false => rfl
                  | true => exact absurd hx hv2
                have hv1f : pfLt v (.fin v1) = false := pfLt_fin_mono h12.le hv2f
                simp only [hv2f, Bool.false_eq_true, if_false] at hacc
                simp only [hv1f, Bool.false_eq_true, if_false]
                exact hacc

/-- A record accepted by the filtering stage at the default thresholds is
accepted with the volume floor lowered (witness for C5). -/
theorem filter_monotone_witness :
    processPair 0 10000 10000 5 pairE = .ok true :=
  filter_monotone 0 10000 5 10000 50000 pairE (by norm_num) rfl

theorem acceptedB_true {nowMs minV minL minC : ℚ} {p : PyVal}
    (h : acceptedB nowMs minV minL minC p = true) :
    processPair nowMs minV minL minC p = .ok true := by
  unfold acceptedB at h
  cases hp : processPair nowMs minV minL minC p with
  | error e => simp only [hp] at h; exact absurd h (by simp)
  | ok b =>
    cases b with
    | true => rfl
    | false => simp only [hp] at h; exact absurd h (by simp)

/-- Every record accepted by the filtering stage has a finite, strictly
positive volume sort key: acceptance requires `has_sufficient_liquidity_depth`,
which recomputes the same raw extraction as the sort key and demands a
positive finite volume/liquidity ratio. -/
theorem accepted_sortKey {nowMs minV minL minC : ℚ} {p : PyVal}
    (h : processPair nowMs minV minL minC p = .ok true) :
    ∃ q : ℚ, 0 < q ∧ sortKeyE p = .ok (.fin q) := by
  have hps := processPair_ok_true h
  have hld : has_sufficient_liquidity_depth p = true := by
    simp only [passes_scam_filters, Bool.and_eq_true] at hps
    exact hps.1.1.2
  unfold has_sufficient_liquidity_depth at hld
  cases hlf : rawNestedFloat p "liquidity" "usd" with
  | error e => simp [hlf] at hld
  | ok lf =>
    simp only [hlf] at hld
    cases hvf : rawNestedFloat p "volume" "h24" with
    | error e => simp [hvf] at hld
    | ok vf =>
      simp only [hvf] at hld
      by_cases hguard : (pfLe lf (.fin 0) || pfLe vf (.fin 0)) = true
      · simp [hguard] at hld
      · have hg : (pfLe lf (.fin 0) || pfLe vf (.fin 0)) = false := by
          cases hx : (pfLe lf (.fin 0) || pfLe vf (.fin 0)) with
          | false => rfl
          | true => exact absurd hx hguard
        simp only [hg, Bool.false_eq_true, if_false] at hld
        have hg2 := hg
        rw [Bool.or_eq_false_iff] at hg2
        cases vf with
        | fin q =>
          refine ⟨q, ?_, hvf⟩
          have := hg2.2
          simp only [pfLe, decide_eq_false_iff_not, not_le] at this
          exact this
        | nan =>
          cases lf with
          | fin b =>
            have hb : ¬ b ≤ 0 := by
              have := hg2.1
              simpa [pfLe] using this
            have hbne : b ≠ 0 := fun hb0 => hb (le_of_eq hb0)
            simp [pfDiv, hbne, pfLe] at hld
          | nan => simp [pfDiv, pfLe] at hld
          | inf b2 => simp [pfDiv, pfLe] at hld
        | inf b =>
          have hbt : b = true := by
            have := hg2.2
            simpa [pfLe] using this
          subst hbt
          cases lf with
          | fin c =>
            have hc : ¬ c ≤ 0 := by
              have := hg2.1
              simpa [pfLe] using this
            have hcne : c ≠ 0 := fun h0 => hc (le_of_eq h0)
            have hcpos : 0 < c := lt_of_not_le hc
            simp [pfDiv, hcne, pfLe, hcpos] at hld
          | nan => simp [pfDiv, pfLe] at hld
          | inf b2 => simp [pfDiv, pfLe] at hld

theorem nestedFloat_total {d : List (String × PyVal)} (k inner : String)
    (hok : fieldOk d k inner = true) :
    ∃ r, nestedFloat (.vDict d) k inner = .ok r := by
  unfold nestedFloat
  unfold fieldOk at hok
  cases hdk : dget d k with
  | none =>
    simp only [hdk, Option.getD_none]
    exact ⟨_, rfl⟩
  | some v =>
    simp only [hdk] at hok
    cases v with
    | vDict dd =>
      simp only [hdk, Option.getD_some]
      cases hdi : dget dd inner with
      | none =>
        simp only [hdi, Option.getD_none]
        exact ⟨_, rfl⟩
      | some w =>
        simp only [hdi] at hok
        simp only [hdi, Option.getD_some]
        by_cases htr : pyTruthy w = true
        · rw [if_pos htr]
          cases w with
          | vInt n =>
            simp at hok
            simp only [pyFloat, hok, Bool.false_eq_true, if_false]
            exact ⟨_, rfl⟩
          | vStr s =>
            cases hp : parsePyFloat (trimL s.data) with
            | none => exact ⟨none, by simp [pyFloat, hp]⟩
            | some f => exact ⟨some f, by simp [pyFloat, hp]⟩
          | vNone => exact ⟨_, rfl⟩
          | vFlt q => exact ⟨_, rfl⟩
          | vNaN => exact ⟨_, rfl⟩
          | vInf b => exact ⟨_, rfl⟩
          | vDict d2 => exact ⟨_, rfl⟩
          | vOther => exact ⟨_, rfl⟩
        · rw [if_neg htr]
          exact ⟨_, rfl⟩
    | vNone => simp at hok
    | vStr s => simp at hok
    | vInt n => simp at hok
    | vFlt q => simp at hok
    | vNaN => simp at hok
    | vInf b => simp at hok
    | vOther => simp at hok

theorem processPair_total {nowMs minV minL minC : ℚ} {p : PyVal}
    (hws : wellShaped p = true) :
    ∃ b, processPair nowMs minV minL minC p = .ok b := by
  cases p with
  | vDict d =>
    simp only [wellShaped, Bool.and_eq_true] at hws
    obtain ⟨⟨h1, h2⟩, h3⟩ := hws
    obtain ⟨rv, hv⟩ := nestedFloat_total "volume" "h24" h1
    obtain ⟨rl, hl⟩ := nestedFloat_total "liquidity" "usd" h2
    obtain ⟨rc, hc⟩ := nestedFloat_total "priceChange" "h1" h3
    cases rv with
    | none =>
      unfold processPair
      simp only [hv]
      exact ⟨_, rfl⟩
    | some v =>
      cases rl with
      | none =>
        unfold processPair
        simp only [hv, hl]
        exact ⟨_, rfl⟩
      | some lq =>
        cases rc with
        | none =>
          unfold processPair
          simp only [hv, hl, hc]
          exact ⟨_, rfl⟩
        | some c =>
          unfold processPair
          simp only [hv, hl, hc]
          split
          · exact ⟨_, rfl⟩
          · split
            · exact ⟨_, rfl⟩
            · split
              · exact ⟨_, rfl⟩
              · exact ⟨_, rfl⟩
  | vNone => simp [wellShaped] at hws
  | vStr s => simp [wellShaped] at hws
  | vInt n => simp [wellShaped] at hws
  | vFlt q => simp [wellShaped] at hws
  | vNaN => simp [wellShaped] at hws
  | vInf b => simp [wellShaped] at hws
  | vOther => simp [wellShaped] at hws

theorem filterLoop_eq_filter {nowMs minV minL minC : ℚ} :
    ∀ pairs : List PyVal, (∀ p ∈ pairs, wellShaped p = true) →
      filterLoop nowMs minV minL minC pairs =
        .ok (pairs.filter (acceptedB nowMs minV minL minC)) := by
  intro pairs
  induction pairs with
  | nil => intro _; rfl
  | cons p ps ih =>
    intro hws
    obtain ⟨b, hb⟩ := @processPair_total nowMs minV minL minC p (hws p (by simp))
    have hps := ih (fun x hx => hws x (by simp [hx]))
    have haccp : acceptedB nowMs minV minL minC p = b := by
      cases b <;> simp [acceptedB, hb]
    simp only [filterLoop, hb, hps, List.filter_cons, haccp]

theorem filterLoop_ok_eq {nowMs minV minL minC : ℚ} :
    ∀ {pairs fl : List PyVal},
      filterLoop nowMs minV minL minC pairs = .ok fl →
      fl = pairs.filter (acceptedB nowMs minV minL minC) := by
  intro pairs
  induction pairs with
  | nil =>
    intro fl h
    simp only [filterLoop] at h
    simpa using (Except.ok.inj h).symm
  | cons p ps ih =>
    intro fl h
    unfold filterLoop at h
    cases hp : processPair nowMs minV minL minC p with
    | error e => simp [hp] at h
    | ok b =>
      simp only [hp] at h
      cases hl : filterLoop nowMs minV minL minC ps with
      | error e => simp [hl] at h
      | ok rest =>
        simp only [hl] at h
        have hfl := (Except.ok.inj h).symm
        have hrest := ih hl
        have haccp : acceptedB nowMs minV minL minC p = b := by
          cases b <;> simp [acceptedB, hp]
        subst hfl
        cases b <;> simp [List.filter_cons, haccp, hrest]

theorem mem_insertByVol {x p : PyVal} :
    ∀ {l : List PyVal}, x ∈ insertByVol p l ↔ x = p ∨ x ∈ l := by
  intro l
  induction l with
  | nil => simp [insertByVol]
  | cons q qs ih =>
    unfold insertByVol
    split
    · simp only [List.mem_cons]
    · simp only [List.mem_cons, ih]
      tauto

theorem mem_sortByVolDesc {x : PyVal} :
    ∀ {l : List PyVal}, x ∈ sortByVolDesc l ↔ x ∈ l := by
  intro l
  induction l with
  | nil => simp [sortByVolDesc]
  | cons p ps ih =>
    show x ∈ insertByVol p (sortByVolDesc ps) ↔ _
    rw [mem_insertByVol, ih]
    simp

/-! ## Claim C10 : implicit filter totality -/

/-- C10, counterexample.  A single dict record with a null `volume` field
makes `filter_signals` raise: `volume_data.get` is called on `None`,
raising `AttributeError`, which the loop's
`except (ValueError, TypeError, KeyError)` clause does not catch.  A
record whose `volume.h24` is the int `10**400` also raises: `float()`
on an int of magnitude at least `2**1024` raises `OverflowError`, again
outside the caught exception classes. -/
theorem filter_null_volume_counterexample :
    filter_signals 0 [.vDict [("volume", .vNone)]] = .error () ∧
    filter_signals 0
      [.vDict [("volume", .vDict [("h24", .vInt (ipow 10 400))])]] =
      .error () :=
  ⟨rfl, rfl⟩

/-- C10, amended.  For every input list of dict records whose `volume`,
`liquidity` and `priceChange` values — when the key is present — are
themselves dicts whose inner values are not ints of magnitude at least
`2**1024` (any other malformed inner value is fine), `filter_signals`
returns normally and every element of its output list is an element of
the input list; a record whose numeric fields cannot be parsed is
silently skipped.  Records with a non-dict value under one of those
three keys (e.g. null) raise an uncaught `AttributeError`, and an
oversized inner int raises an uncaught `OverflowError` from `float()`:
the loop catches only `ValueError`, `TypeError` and `KeyError`. -/
theorem filter_totality_amended (nowMs minV minL minC : ℚ) (pairs : List PyVal)
    (hws : ∀ p ∈ pairs, wellShaped p = true) :
    ∃ l, filter_signalsP nowMs minV minL minC pairs = .ok l ∧ ∀ x ∈ l, x ∈ pairs := by
  have hloop := @filterLoop_eq_filter nowMs minV minL minC pairs hws
  have hall : ((pairs.filter (acceptedB nowMs minV minL minC)).all
      (fun p => (sortKeyE p).isOk)) = true := by
    rw [List.all_eq_true]
    intro p hp
    have hacc : acceptedB nowMs minV minL minC p = true := (List.mem_filter.mp hp).2
    obtain ⟨q, _, hk⟩ := accepted_sortKey (acceptedB_true hacc)
    simp [hk, Except.isOk, Except.toBool]
  refine ⟨sortByVolDesc (pairs.filter (acceptedB nowMs minV minL minC)), ?_, ?_⟩
  · unfold filter_signalsP
    simp only [hloop, hall, if_true]
  · intro x hx
    exact (List.mem_filter.mp (mem_sortByVolDesc.mp hx)).1

/-- Witness for C10 on a concrete well-shaped list: one accepted record
and one record with a malformed (string) volume that is silently
skipped. -/
theorem filter_totality_amended_witness :
    ∃ l, filter_signalsP 0 50000 10000 5
        [pairE, .vDict [("volume", .vDict [("h24", .vStr "abc")])]] = .ok l ∧
      ∀ x ∈ l, x ∈ [pairE, .vDict [("volume", .vDict [("h24", .vStr "abc")])]] :=
  filter_totality_amended 0 50000 10000 5 _ (by
    intro p hp
    simp only [List.mem_cons, List.not_mem_nil, or_false] at hp
    rcases hp with rfl | rfl <;> rfl)

/-! ## Claim C9 : registry eviction -/

/-- C9, counterexample.  A registry at `maxJobs = 20` containing a job
older than the retention threshold in which registering a 21st job evicts
NOTHING: the maybe-cleanup sweep (interval elapsed) first removes a
completed job, dropping the registry to 19 entries, so the at-capacity
check fails, no forced cleanup runs, and the over-age job survives. -/
theorem registry_eviction_counterexample :
    ceManager.jobs.length = 20 ∧
    JOB_RETENTION < (10000 : ℚ) - 5000 ∧
    ("old", (⟨5000, false⟩ : JobInfo)) ∈ ceManager.jobs ∧
    (add_job ceManager 10000 "new").2 = [] ∧
    ("old", (⟨5000, false⟩ : JobInfo)) ∈ (add_job ceManager 10000 "new").1.jobs :=
  ⟨rfl, by norm_num [JOB_RETENTION], by decide, rfl, by decide⟩

/-- C9, amended.  Forced eviction at capacity: whenever the maybe-cleanup
pass leaves the registry still holding at least `maxJobs = 20` jobs,
registering a new job runs the forced cleanup, which — regardless of
completion state — cancels the schedule of every job older than the
retention threshold (its name appears in the evicted list), removes it
from the registry, and only then inserts the new job under its name. -/
theorem registry_eviction_amended (st : JobManager) (now : ℚ) (name : String)
    (hmax : st.max_jobs = 20)
    (hcap : 20 ≤ (maybeCleanup st now).jobs.length) :
    ∀ pr ∈ (maybeCleanup st now).jobs, JOB_RETENTION < now - pr.2.created →
      (pr.1 ∈ (add_job st now name).2 ∧
       pr ∉ (add_job st now name).1.jobs ∧
       (name, (⟨now, false⟩ : JobInfo)) ∈ (add_job st now name).1.jobs) := by
  intro pr hpr hold
  have hold2 : decide (JOB_RETENTION < qSub now pr.2.created) = true := by
    rw [qSub_eq]; exact decide_eq_true hold
  have hmax1 : (maybeCleanup st now).max_jobs = 20 := by
    unfold maybeCleanup; split <;> simp [hmax]
  have hcond : (maybeCleanup st now).max_jobs ≤ (maybeCleanup st now).jobs.length := by
    rw [hmax1]; exact hcap
  have hprne : pr.2 ≠ (⟨now, false⟩ : JobInfo) := by
    intro he
    rw [he] at hold
    simp only [JOB_RETENTION] at hold
    have : now - now = 0 := by ring
    rw [this] at hold
    linarith
  unfold add_job
  simp only [if_pos hcond]
  refine ⟨?_, ?_, ?_⟩
  · exact List.mem_map.mpr ⟨pr, List.mem_filter.mpr ⟨hpr, hold2⟩, rfl⟩
  · intro hmem
    unfold dictInsert at hmem
    by_cases hany :
        ((forceCleanup (maybeCleanup st now).jobs now).1.any (fun j => j.1 = name)) = true
    · rw [if_pos hany] at hmem
      obtain ⟨j, hj, hje⟩ := List.mem_map.mp hmem
      by_cases hjn : j.1 = name
      · rw [if_pos hjn] at hje
        have h2 := congrArg Prod.snd hje
        exact hprne h2.symm
      · rw [if_neg hjn] at hje
        have hjf := List.mem_filter.mp (hje ▸ hj)
        rw [hold2] at hjf
        simpa using hjf.2
    · rw [if_neg hany] at hmem
      rcases List.mem_append.mp hmem with hmem1 | hmem2
      · have := (List.mem_filter.mp hmem1).2
        rw [hold2] at this
        simp at this
      · have h2 := congrArg Prod.snd (List.mem_singleton.mp hmem2)
        exact hprne h2
  · unfold dictInsert
    by_cases hany :
        ((forceCleanup (maybeCleanup st now).jobs now).1.any (fun j => j.1 = name)) = true
    · rw [if_pos hany]
      obtain ⟨j, hj, hjn⟩ := List.any_eq_true.mp hany
      refine List.mem_map.mpr ⟨j, hj, ?_⟩
      rw [if_pos (by simpa using hjn)]
    · rw [if_neg hany]
      exact List.mem_append.mpr (Or.inr (by simp))

/-- Witness for C9 at the concrete at-capacity registry whose cleanup
interval has not elapsed: the over-age job is evicted (its schedule
cancelled), it leaves the registry, and the new job is inserted. -/
theorem registry_eviction_amended_witness :
    "old" ∈ (add_job stW 10000 "new").2 ∧
    ("old", (⟨5000, false⟩ : JobInfo)) ∉ (add_job stW 10000 "new").1.jobs ∧
    ("new", (⟨10000, false⟩ : JobInfo)) ∈ (add_job stW 10000 "new").1.jobs :=
  registry_eviction_amended stW 10000 "new" rfl (by decide)
    ("old", ⟨5000, false⟩) (by decide) (by norm_num [JOB_RETENTION])

/-! ## Claim C6 : ranking stability -/

theorem not_beq_of_not_pfGe {x : PyFloat} {k : ℚ} (h : pfGe (.fin k) x = false) :
    (x == .fin k) = false := by
  rw [beq_eq_false_iff_ne]
  intro he
  subst he
  simp [pfGe, pfLe] at h

theorem pfGe_total_fin {a b : ℚ} (h : pfGe (.fin a) (.fin b) = false) :
    pfGe (.fin b) (.fin a) = true := by
  simp only [pfGe, pfLe, decide_eq_false_iff_not, not_le] at h
  simp only [pfGe, pfLe, decide_eq_true_eq]
  linarith

theorem pfGe_trans_fin {a b c : ℚ} (h1 : pfGe (.fin a) (.fin b) = true)
    (h2 : pfGe (.fin b) (.fin c) = true) : pfGe (.fin a) (.fin c) = true := by
  simp only [pfGe, pfLe, decide_eq_true_eq] at h1 h2 ⊢
  linarith

theorem insertByVol_filter (k : ℚ) (p : PyVal) :
    ∀ l : List PyVal,
      (insertByVol p l).filter (fun x => volKeyF x == .fin k) =
        if volKeyF p == .fin k then
          p :: l.filter (fun x => volKeyF x == .fin k)
        else l.filter (fun x => volKeyF x == .fin k) := by
  intro l
  induction l with
  | nil =>
    show List.filter _ [p] = _
    cases hx : (volKeyF p == PyFloat.fin k) <;> simp [List.filter, hx]
  | cons q qs ih =>
    unfold insertByVol
    split
    next hge => simp only [List.filter_cons]
    next hge =>
      have hgef : pfGe (volKeyF p) (volKeyF q) = false := by
        cases hx : pfGe (volKeyF p) (volKeyF q) with
        | false => rfl
        | true => exact absurd hx hge
      by_cases hpk : (volKeyF p == .fin k) = true
      · have hkp : volKeyF p = .fin k := by simpa using hpk
        have hqk : (volKeyF q == .fin k) = false := by
          apply not_beq_of_not_pfGe
          rw [← hkp]
          exact hgef
        simp [List.filter_cons, ih, hpk, hqk]
      · have hpk2 : (volKeyF p == .fin k) = false := by
          cases hx : (volKeyF p == .fin k) with
          | false => rfl
          | true => exact absurd hx hpk
        simp [List.filter_cons, ih, hpk2]

theorem sortByVolDesc_filter (k : ℚ) :
    ∀ l : List PyVal,
      (sortByVolDesc l).filter (fun x => volKeyF x == .fin k) =
        l.filter (fun x => volKeyF x == .fin k) := by
  intro l
  induction l with
  | nil => rfl
  | cons p ps ih =>
    show (insertByVol p (sortByVolDesc ps)).filter _ = _
    rw [insertByVol_filter]
    simp only [List.filter_cons, ih]

theorem insertByVol_pairwise {p : PyVal} :
    ∀ {l : List PyVal},
      (∀ x ∈ p :: l, ∃ q, volKeyF x = .fin q) →
      l.Pairwise (fun a b => pfGe (volKeyF a) (volKeyF b) = true) →
      (insertByVol p l).Pairwise (fun a b => pfGe (volKeyF a) (volKeyF b) = true) := by
  intro l
  induction l with
  | nil =>
    intro _ _
    simp [insertByVol]
  | cons q qs ih =>
    intro hfin hpw
    rw [List.pairwise_cons] at hpw
    obtain ⟨hq, hqs⟩ := hpw
    unfold insertByVol
    split
    next hge =>
      rw [List.pairwise_cons]
      refine ⟨?_, List.pairwise_cons.mpr ⟨hq, hqs⟩⟩
      intro y hy
      rcases List.mem_cons.mp hy with rfl | hy2
      · exact hge
      · obtain ⟨a, ha⟩ := hfin p (by simp)
        obtain ⟨b, hb⟩ := hfin q (by simp)
        obtain ⟨c, hc⟩ := hfin y (by simp [hy2])
        rw [ha, hc]
        rw [ha, hb] at hge
        have hqy := hq y hy2
        rw [hb, hc] at hqy
        exact pfGe_trans_fin hge hqy
    next hge =>
      have hgef : pfGe (volKeyF p) (volKeyF q) = false := by
        cases hx : pfGe (volKeyF p) (volKeyF q) with
        | false => rfl
        | true => exact absurd hx hge
      rw [List.pairwise_cons]
      constructor
      · intro y hy
        rcases mem_insertByVol.mp hy with rfl | hy2
        · obtain ⟨a, ha⟩ := hfin y (by simp)
          obtain ⟨b, hb⟩ := hfin q (by simp)
          rw [ha, hb] at hgef
          rw [hb, ha]
          exact pfGe_total_fin hgef
        · exact hq y hy2
      · refine ih ?_ hqs
        intro x hx
        rcases List.mem_cons.mp hx with rfl | hx2
        · exact hfin x (by simp)
        · exact hfin x (by simp [hx2])

theorem sortByVolDesc_pairwise :
    ∀ {l : List PyVal}, (∀ x ∈ l, ∃ q, volKeyF x = .fin q) →
      (sortByVolDesc l).Pairwise (fun a b => pfGe (volKeyF a) (volKeyF b) = true) := by
  intro l
  induction l with
  | nil =>
    intro _
    simp [sortByVolDesc]
  | cons p ps ih =>
    intro hfin
    show (insertByVol p (sortByVolDesc ps)).Pairwise _
    apply insertByVol_pairwise
    · intro x hx
      rcases List.mem_cons.mp hx with rfl | hx2
      · exact hfin x (by simp)
      · exact hfin x (by simp [mem_sortByVolDesc.mp hx2])
    · exact ih (fun x hx => hfin x (by simp [hx]))

/-- C6.  Ranking stability: whenever `filter_signals` returns normally
with output `l`, the output is sorted by 24h volume in descending order
(`volKeyQ` is non-increasing along `l`), and the sort is stable: for
every volume value `k`, the records of `l` with that exact volume appear
in the same order as in the accepted sublist of the input. -/
theorem ranking_stable (nowMs minV minL minC : ℚ) (pairs l : List PyVal)
    (h : filter_signalsP nowMs minV minL minC pairs = .ok l) :
    l.Pairwise (fun a b => volKeyQ b ≤ volKeyQ a) ∧
    ∀ k : ℚ, l.filter (fun x => volKeyF x == .fin k) =
      (pairs.filter (acceptedB nowMs minV minL minC)).filter
        (fun x => volKeyF x == .fin k) := by
  unfold filter_signalsP at h
  cases hloop : filterLoop nowMs minV minL minC pairs with
  | error e => simp [hloop] at h
  | ok fl =>
    simp only [hloop] at h
    have hfl : fl = pairs.filter (acceptedB nowMs minV minL minC) :=
      filterLoop_ok_eq hloop
    by_cases hall : (fl.all (fun p => (sortKeyE p).isOk)) = true
    · simp only [hall, if_true] at h
      have hl : l = sortByVolDesc fl := (Except.ok.inj h).symm
      have hfin : ∀ x ∈ fl, ∃ q, volKeyF x = .fin q := by
        intro x hx
        have hacc : acceptedB nowMs minV minL minC x = true := by
          rw [hfl] at hx
          exact (List.mem_filter.mp hx).2
        obtain ⟨q, _, hk⟩ := accepted_sortKey (acceptedB_true hacc)
        exact ⟨q, by simp [volKeyF, hk]⟩
      subst hl
      constructor
      · have hpw := sortByVolDesc_pairwise hfin
        refine List.Pairwise.imp_of_mem ?_ hpw
        intro a b ha hb hr
        obtain ⟨qa, hqa⟩ := hfin a (mem_sortByVolDesc.mp ha)
        obtain ⟨qb, hqb⟩ := hfin b (mem_sortByVolDesc.mp hb)
        rw [hqa, hqb] at hr
        simp only [pfGe, pfLe, decide_eq_true_eq] at hr
        simp [volKeyQ, hqa, hqb, hr]
      · intro k
        rw [sortByVolDesc_filter, hfl]
    · have hallf : (fl.all (fun p => (sortKeyE p).isOk)) = false := by
        cases hx : (fl.all (fun p => (sortKeyE p).isOk)) with
        | false => rfl
        | true => exact absurd hx hall
      simp [hallf] at h

/-- Witness for C6: two accepted records with equal 24h volume keep their
input order in the ranked output. -/
theorem ranking_stable_witness :
    List.Pairwise (fun a b => volKeyQ b ≤ volKeyQ a) [pairE, pairF] :=
  (ranking_stable 0 50000 10000 5 [pairE, pairF] [pairE, pairF] rfl).1

end SatoshiBot
